import Mathlib

/-!
# Verification of the multi-head self-attention kernel

Shallow embedding of the `SelfAttention` module from
`Transformer&OtherMonsters_Lecture.ipynb` (PyTorch).  Tensors are modelled
as shape-carrying structures whose entries are functions from natural-number
indices into a field `R`; the float arithmetic of the source is modelled by
exact arithmetic in `ℝ`, with `Real.exp` standing for the exponential used
by `torch.softmax`.  Shape errors that PyTorch raises at run time
(matmul dimension mismatch in `nn.Linear`, element-count mismatch in
`view`, a mask outside the broadcast contract — failing at `masked_fill`
or, after mutual expansion, at the later `reshape` —, a zero division in
`__init__`) are modelled by `Option`/`none`.  Definitions are generic in
`R` so that they stay computable; all theorems are stated at `ℝ`.
-/

/-- A rank-3 tensor of shape `(d0, d1, d2)`.  Entries outside the index
ranges are irrelevant junk carried by the total function `data`. -/
@[ext]
structure T3 (R : Type) where
  d0 : Nat
  d1 : Nat
  d2 : Nat
  data : Nat → Nat → Nat → R

/-- A rank-4 tensor of shape `(d0, d1, d2, d3)`. -/
@[ext]
structure T4 (R : Type) where
  d0 : Nat
  d1 : Nat
  d2 : Nat
  d3 : Nat
  data : Nat → Nat → Nat → Nat → R

/-- A boolean mask tensor of rank at most 4: a dimension list plus entries
(`true` = the (query, key) position is allowed, `false` = forbidden),
matching `masked_fill(mask == 0, -1e9)` on a boolean mask.  The
out-of-place `masked_fill` the source uses broadcasts BOTH operands, so a
mask of rank above 4 would expand the score tensor itself to rank above 4;
such masks leave this rank-4 tensor model entirely and are excluded by the
rank invariant.  Within rank 4, a mask either broadcasts into the score
shape (the mask contract of the spec) or strictly enlarges it. -/
structure TMask where
  dims : List Nat
  data : List Nat → Bool
  hrank : dims.length ≤ 4

/-- Right-aligned broadcast check on REVERSED dimension lists: each source
dimension must equal the target dimension or be `1`, and the source may not
have more dimensions than the target (PyTorch broadcasting for
`masked_fill`). -/
def bcastOKRev : List Nat → List Nat → Bool
  | [], _ => true
  | _ :: _, [] => false
  | s :: ss, t :: ts => (s == t || s == 1) && bcastOKRev ss ts

/-- `bcastOK src tgt` : the shape `src` broadcasts to the shape `tgt`. -/
def bcastOK (src tgt : List Nat) : Bool :=
  bcastOKRev src.reverse tgt.reverse

/-- Index translation for broadcasting, on REVERSED lists: where the source
dimension is `1` the index collapses to `0`, otherwise it is kept. -/
def bcastIdxRev : List Nat → List Nat → List Nat
  | [], _ => []
  | _ :: ss, [] => 0 :: bcastIdxRev ss []
  | s :: ss, i :: is => (if s = 1 then 0 else i) :: bcastIdxRev ss is

/-- Read the (broadcast) mask at a target index `idx`. -/
def maskLookup (m : TMask) (idx : List Nat) : Bool :=
  m.data (bcastIdxRev m.dims.reverse idx.reverse).reverse

/-- Whether the key position `j` is forbidden for the score row
`(b, h, i)`: with no mask nothing is forbidden; with a mask, the positions
where the broadcast mask is `false` (`mask == 0`) are forbidden. -/
def forbidden (mask : Option TMask) (b h i j : Nat) : Bool :=
  match mask with
  | none => false
  | some m => !(maskLookup m [b, h, i, j])

/-- The broadcast precondition of the masking step, trivially true when no
mask is supplied. -/
def maskOK (mask : Option TMask) (tgt : List Nat) : Bool :=
  match mask with
  | none => true
  | some m => bcastOK m.dims tgt

section Kernel

variable {R : Type} [Field R]

/-- The `SelfAttention` module: dimensions fixed at construction plus the
weights of the two `nn.Linear` layers `to_qkv : Linear(embed_size, 3*embed_size)`
and `to_out : Linear(embed_size, embed_size)` (weight matrices indexed
`(out_feature, in_feature)` as in PyTorch, plus bias vectors). -/
structure SelfAttention (R : Type) where
  embed_size : Nat
  heads : Nat
  head_dim : Nat
  scale : R
  to_qkv_w : Nat → Nat → R
  to_qkv_b : Nat → R
  to_out_w : Nat → Nat → R
  to_out_b : Nat → R

/-- `__init__(embed_size, heads)`.  The source computes
`head_dim = embed_size // heads` (floor division, no divisibility check)
and `scale = head_dim ** -0.5`.  In Python both lines raise a
`ZeroDivisionError` exactly when `embed_size // heads = 0` (division by
`heads = 0`, or `0 ** -0.5` when `heads > embed_size`); this is the only
failure path, modelled by `none`.  The random initialisation of the two
`nn.Linear` layers is externalised: the weights are parameters, and
`sqrtFn` abstracts the square root used for `scale`. -/
def SelfAttention.init (sqrtFn : R → R) (embed_size heads : Nat)
    (Wqkv : Nat → Nat → R) (bqkv : Nat → R)
    (Wout : Nat → Nat → R) (bout : Nat → R) : Option (SelfAttention R) :=
  if embed_size / heads = 0 then none
  else some
    { embed_size := embed_size
      heads := heads
      head_dim := embed_size / heads
      scale := (sqrtFn (((embed_size / heads : Nat) : R)))⁻¹
      to_qkv_w := Wqkv
      to_qkv_b := bqkv
      to_out_w := Wout
      to_out_b := bout }

/-- The parameter list of the source method `def forward(self, x, mask=None)`:
these are the only arguments the sole entry point accepts. -/
def forwardParams : List String := ["self", "x", "mask"]

/-- `nn.Linear` applied to a rank-3 input: `y = x @ W.T + b`.  PyTorch
raises a shape error when the trailing dimension of `x` differs from the
layer's `in_features`; this is the `none` branch. -/
def linearT3 (W : Nat → Nat → R) (bias : Nat → R) (outF inF : Nat)
    (x : T3 R) : Option (T3 R) :=
  if x.d2 = inF then
    some ⟨x.d0, x.d1, outF, fun b s o =>
      (∑ e in Finset.range inF, x.data b s e * W o e) + bias o⟩
  else none

/-- First chunk of `.chunk(3, dim=-1)` (the query slice of width `E`). -/
def chunkQ (E : Nat) (t : T3 R) : T3 R :=
  ⟨t.d0, t.d1, E, fun b s e => t.data b s e⟩

/-- Second chunk of `.chunk(3, dim=-1)` (the key slice). -/
def chunkK (E : Nat) (t : T3 R) : T3 R :=
  ⟨t.d0, t.d1, E, fun b s e => t.data b s (E + e)⟩

/-- Third chunk of `.chunk(3, dim=-1)` (the value slice). -/
def chunkV (E : Nat) (t : T3 R) : T3 R :=
  ⟨t.d0, t.d1, E, fun b s e => t.data b s (2 * E + e)⟩

/-- `t.view(batch_size, seq_len, heads, head_dim).transpose(1, 2)`:
splits the feature axis into heads and moves the head axis forward,
yielding shape `(B, heads, S, head_dim)`.  `view` raises when the element
counts disagree; this is the `none` branch. -/
def splitHeads (H Dh : Nat) (t : T3 R) : Option (T4 R) :=
  if t.d0 * t.d1 * t.d2 = t.d0 * t.d1 * (H * Dh) then
    some ⟨t.d0, H, t.d1, Dh, fun b h s d => t.data b s (h * Dh + d)⟩
  else none

/-- `scores = (q @ k.transpose(-2, -1)) * self.scale` : batched dot
products of query rows with key rows, scaled. -/
def scoresOf (scale : R) (q kk : T4 R) : T4 R :=
  ⟨q.d0, q.d1, q.d2, kk.d2, fun b h i j =>
    (∑ d in Finset.range q.d3, q.data b h i d * kk.data b h j d) * scale⟩

/-- `scores.masked_fill(mask == 0, -1e9)` : forbidden positions of the
broadcast mask are overwritten with the finite sentinel `-1e9`.  The guard
asks that the (rank at most 4) mask broadcast INTO the score shape, the
contract under which the program completes and which every success theorem
below assumes.  A rank at most 4 mask that fails this guard makes the
program call fail as well: either the shapes are mutually incompatible and
`masked_fill` itself raises, or — because the out-of-place `masked_fill`
expands both operands — the mask strictly enlarges the scores, and on
positive dimensions the element count of the enlarged context then
strictly exceeds `batch * seq * embed_size`, so the final `reshape` (or
the `attn_weights @ v` matmul) raises.  The `Option` model records that
the call fails, not where it fails; the mask-failure theorem is therefore
stated for positive dimensions only, since with a zero-sized dimension an
enlarging mask can flow through on empty tensors. -/
def maskFill (m : TMask) (t : T4 R) : Option (T4 R) :=
  if bcastOK m.dims [t.d0, t.d1, t.d2, t.d3] then
    some ⟨t.d0, t.d1, t.d2, t.d3, fun b h i j =>
      if maskLookup m [b, h, i, j] then t.data b h i j
      else -(1000000000 : R)⟩
  else none

/-- The `if mask is not None` guard around `masked_fill`. -/
def applyMask (mask : Option TMask) (t : T4 R) : Option (T4 R) :=
  match mask with
  | none => some t
  | some m => maskFill m t

/-- `torch.softmax(scores, dim=-1)` : each row of length `d3` is mapped to
`exp s_j / Σ_l exp s_l` (in exact real arithmetic the max-subtraction that
`torch.softmax` performs for stability changes nothing). -/
def softmaxLast (rexp : R → R) (t : T4 R) : T4 R :=
  ⟨t.d0, t.d1, t.d2, t.d3, fun b h i j =>
    rexp (t.data b h i j) / ∑ l in Finset.range t.d3, rexp (t.data b h i l)⟩

/-- `context = attn_weights @ v` : the softmax-weighted aggregation of the
value vectors. -/
def contextOf (w v : T4 R) : T4 R :=
  ⟨w.d0, w.d1, w.d2, v.d3, fun b h i d =>
    ∑ j in Finset.range w.d3, w.data b h i j * v.data b h j d⟩

/-- `context.transpose(1, 2).reshape(batch_size, seq_len, embed_size)` :
heads are merged back by concatenation along the feature axis. -/
def mergeHeads (E Dh : Nat) (t : T4 R) : T3 R :=
  ⟨t.d0, t.d2, E, fun b s e => t.data b (e / Dh) s (e % Dh)⟩

/-- The masked, scaled score tensor computed inside `forward` (the value
that is fed to `torch.softmax`). -/
def maskedScores (k : SelfAttention R) (x : T3 R) (mask : Option TMask) :
    Option (T4 R) := do
  let qkv ← linearT3 k.to_qkv_w k.to_qkv_b (3 * k.embed_size) k.embed_size x
  let q ← splitHeads k.heads k.head_dim (chunkQ k.embed_size qkv)
  let kk ← splitHeads k.heads k.head_dim (chunkK k.embed_size qkv)
  applyMask mask (scoresOf k.scale q kk)

/-- The attention-weight tensor `attn_weights = torch.softmax(scores, dim=-1)`
computed inside `forward` (shape `(B, heads, S, S)`); the source exposes it
only as a local variable. -/
def attnWeights (rexp : R → R) (k : SelfAttention R) (x : T3 R)
    (mask : Option TMask) : Option (T4 R) :=
  (maskedScores k x mask).map (softmaxLast rexp)

/-- `forward(self, x, mask=None)` : the whole forward transform.  Returns
only the output batch — the source has no `return_weights` flag and never
returns the attention weights. -/
def forward (rexp : R → R) (k : SelfAttention R) (x : T3 R)
    (mask : Option TMask) : Option (T3 R) := do
  let qkv ← linearT3 k.to_qkv_w k.to_qkv_b (3 * k.embed_size) k.embed_size x
  let q ← splitHeads k.heads k.head_dim (chunkQ k.embed_size qkv)
  let kk ← splitHeads k.heads k.head_dim (chunkK k.embed_size qkv)
  let v ← splitHeads k.heads k.head_dim (chunkV k.embed_size qkv)
  let ms ← applyMask mask (scoresOf k.scale q kk)
  let w := softmaxLast rexp ms
  linearT3 k.to_out_w k.to_out_b k.embed_size k.embed_size
    (mergeHeads k.embed_size k.head_dim (contextOf w v))

/-!
## Derived total pipeline

The values that the `Option` pipeline of `forward` produces when every
shape check succeeds, written as total functions.  Each is read off the
corresponding line of the source; the lemmas below prove that
`maskedScores`, `attnWeights` and `forward` return exactly these values
on shape-correct inputs.
-/

/-- Value of `self.to_qkv(x)` (shape `(B, S, 3*embed_size)`). -/
def qkvT (k : SelfAttention R) (x : T3 R) : T3 R :=
  ⟨x.d0, x.d1, 3 * k.embed_size, fun b s o =>
    (∑ e in Finset.range k.embed_size, x.data b s e * k.to_qkv_w o e) + k.to_qkv_b o⟩

/-- Value of the split-and-transposed query tensor `q` (shape
`(B, heads, S, head_dim)`). -/
def qT (k : SelfAttention R) (x : T3 R) : T4 R :=
  ⟨x.d0, k.heads, x.d1, k.head_dim, fun b h s d =>
    (qkvT k x).data b s (h * k.head_dim + d)⟩

/-- Value of the split-and-transposed key tensor `k`. -/
def kT (k : SelfAttention R) (x : T3 R) : T4 R :=
  ⟨x.d0, k.heads, x.d1, k.head_dim, fun b h s d =>
    (qkvT k x).data b s (k.embed_size + (h * k.head_dim + d))⟩

/-- Value of the split-and-transposed value tensor `v`. -/
def vT (k : SelfAttention R) (x : T3 R) : T4 R :=
  ⟨x.d0, k.heads, x.d1, k.head_dim, fun b h s d =>
    (qkvT k x).data b s (2 * k.embed_size + (h * k.head_dim + d))⟩

/-- Value of `scores = (q @ k.transpose(-2, -1)) * self.scale`
(shape `(B, heads, S, S)`). -/
def scoresT (k : SelfAttention R) (x : T3 R) : T4 R :=
  ⟨x.d0, k.heads, x.d1, x.d1, fun b h i j =>
    (∑ d in Finset.range k.head_dim,
      (qT k x).data b h i d * (kT k x).data b h j d) * k.scale⟩

/-- Value of the scores after the optional `masked_fill`. -/
def msT (k : SelfAttention R) (x : T3 R) (mask : Option TMask) : T4 R :=
  ⟨x.d0, k.heads, x.d1, x.d1, fun b h i j =>
    match mask with
    | none => (scoresT k x).data b h i j
    | some m =>
      if maskLookup m [b, h, i, j] then (scoresT k x).data b h i j
      else -(1000000000 : R)⟩

/-- Value of `attn_weights = torch.softmax(scores, dim=-1)`. -/
def wT (rexp : R → R) (k : SelfAttention R) (x : T3 R)
    (mask : Option TMask) : T4 R :=
  softmaxLast rexp (msT k x mask)

/-- Value of `context = attn_weights @ v`. -/
def ctxT (rexp : R → R) (k : SelfAttention R) (x : T3 R)
    (mask : Option TMask) : T4 R :=
  contextOf (wT rexp k x mask) (vT k x)

/-- Value of the final output batch `self.to_out(context)`. -/
def outT (rexp : R → R) (k : SelfAttention R) (x : T3 R)
    (mask : Option TMask) : T3 R :=
  ⟨x.d0, x.d1, k.embed_size, fun b s o =>
    (∑ e in Finset.range k.embed_size,
      (mergeHeads k.embed_size k.head_dim (ctxT rexp k x mask)).data b s e
        * k.to_out_w o e) + k.to_out_b o⟩

/-- Permute the sequence axis of an embedding batch by `π`. -/
def permuteSeq (π : Equiv.Perm ℕ) (x : T3 R) : T3 R :=
  ⟨x.d0, x.d1, x.d2, fun b s e => x.data b (π s) e⟩

/-- Reindex both the query and the key axis of an attention-weight tensor
by `π`. -/
def permuteQK (π : Equiv.Perm ℕ) (w : T4 R) : T4 R :=
  ⟨w.d0, w.d1, w.d2, w.d3, fun b h i j => w.data b h (π i) (π j)⟩

/-- Two rank-3 tensors represent the same mathematical tensor: equal shapes
and equal entries at every in-range index. -/
def agree3 (x y : T3 R) : Prop :=
  x.d0 = y.d0 ∧ x.d1 = y.d1 ∧ x.d2 = y.d2 ∧
    ∀ b s e, b < x.d0 → s < x.d1 → e < x.d2 → x.data b s e = y.data b s e

end Kernel

/-- Total post-softmax weight mass that the row `(b, h, i)` puts on
forbidden key positions. -/
def forbiddenMass (mask : Option TMask) (w : T4 ℝ) (b h i : ℕ) : ℝ :=
  ∑ j in Finset.range w.d3, if forbidden mask b h i j then w.data b h i j else 0

/-!
## Concrete instances used by witnesses and counterexamples
-/

/-- A default rank-3 tensor (for `Option.getD`). -/
def dT3 (R : Type) [Field R] : T3 R := ⟨0, 0, 0, fun _ _ _ => 0⟩

/-- A default rank-4 tensor (for `Option.getD`). -/
def dT4 (R : Type) [Field R] : T4 R := ⟨0, 0, 0, 0, fun _ _ _ _ => 0⟩

/-- A minimal valid kernel: `embed_size = heads = head_dim = 1`,
`scale = 1`, all weights and biases zero. -/
def kA (R : Type) [Field R] : SelfAttention R :=
  ⟨1, 1, 1, 1, fun _ _ => 0, fun _ => 0, fun _ _ => 0, fun _ => 0⟩

/-- A kernel with `embed_size = heads = head_dim = 1`, `scale = 1`, whose
`to_qkv` projection yields `q = 1`, `k = x`, `v = 0` (query row of the
weight is zero with bias one, key row is the identity). -/
def kC3 (R : Type) [Field R] : SelfAttention R :=
  ⟨1, 1, 1, 1,
    (fun o _ => if o = 1 then 1 else 0),
    (fun o => if o = 0 then 1 else 0),
    fun _ _ => 0, fun _ => 0⟩

/-- A `(1, 2, 1)` all-zero embedding batch. -/
def xA (R : Type) [Field R] : T3 R := ⟨1, 2, 1, fun _ _ _ => 0⟩

/-- A `(1, 2, 1)` batch equal to `xA` on every in-range index but with
different junk outside the index ranges. -/
def xB (R : Type) [Field R] : T3 R :=
  ⟨1, 2, 1, fun _ s _ => if 5 ≤ s then 7 else 0⟩

/-- A `(1, 2, 1)` batch whose second position holds the value `-1e9`. -/
def xC3 (R : Type) [Field R] : T3 R :=
  ⟨1, 2, 1, fun _ s _ => if s = 1 then -(1000000000 : R) else 0⟩

/-- A `(1, 0, 1)` batch: zero-length sequence. -/
def x60 (R : Type) [Field R] : T3 R := ⟨1, 0, 1, fun _ _ _ => 0⟩

/-- A `(1, 1, 5)` batch: trailing dimension `5` does not match
`embed_size = 1`. -/
def xbad (R : Type) [Field R] : T3 R := ⟨1, 1, 5, fun _ _ _ => 0⟩

/-- A `(1, 2, 8)` all-zero batch (for the `embed_size = 8, heads = 3`
scenario). -/
def x83 (R : Type) [Field R] : T3 R := ⟨1, 2, 8, fun _ _ _ => 0⟩

/-- A `(2, 2)` mask forbidding every (query, key) pair. -/
def mA : TMask := ⟨[2, 2], fun _ => false, by decide⟩

/-- A `(2, 2)` mask allowing only the (query 0, key 1) pair. -/
def m1 : TMask := ⟨[2, 2], fun idx => decide (idx = [0, 1]), by decide⟩

/-- A `(3, 3)` mask: mutually incompatible with scores of shape
`(1, 1, 2, 2)` (3 differs from 2 and neither is 1). -/
def mbad : TMask := ⟨[3, 3], fun _ => true, by decide⟩

/-- All-zero weight matrix. -/
def Wz (R : Type) [Field R] : Nat → Nat → R := fun _ _ => 0

/-- All-zero bias vector. -/
def bz (R : Type) [Field R] : Nat → R := fun _ => 0

/-- The transposition of sequence positions 0 and 1. -/
def pswap : Equiv.Perm ℕ := Equiv.swap 0 1

/-!
## Pipeline lemmas
-/

section PipelineLemmas

variable {R : Type} [Field R]

lemma linearT3_eq (W : Nat → Nat → R) (bias : Nat → R) (outF inF : Nat)
    (x : T3 R) (h : x.d2 = inF) :
    linearT3 W bias outF inF x =
      some ⟨x.d0, x.d1, outF, fun b s o =>
        (∑ e in Finset.range inF, x.data b s e * W o e) + bias o⟩ := by
  unfold linearT3
  rw [if_pos h]

lemma toQKV_eq (k : SelfAttention R) (x : T3 R) (h : x.d2 = k.embed_size) :
    linearT3 k.to_qkv_w k.to_qkv_b (3 * k.embed_size) k.embed_size x =
      some (qkvT k x) :=
  linearT3_eq _ _ _ _ _ h

lemma splitQ_eq (k : SelfAttention R) (x : T3 R)
    (hsplit : x.d0 * x.d1 * k.embed_size
      = x.d0 * x.d1 * (k.heads * k.head_dim)) :
    splitHeads k.heads k.head_dim (chunkQ k.embed_size (qkvT k x))
      = some (qT k x) := by
  unfold splitHeads chunkQ qkvT
  dsimp only
  rw [if_pos hsplit]
  rfl

lemma splitK_eq (k : SelfAttention R) (x : T3 R)
    (hsplit : x.d0 * x.d1 * k.embed_size
      = x.d0 * x.d1 * (k.heads * k.head_dim)) :
    splitHeads k.heads k.head_dim (chunkK k.embed_size (qkvT k x))
      = some (kT k x) := by
  unfold splitHeads chunkK qkvT
  dsimp only
  rw [if_pos hsplit]
  rfl

lemma splitV_eq (k : SelfAttention R) (x : T3 R)
    (hsplit : x.d0 * x.d1 * k.embed_size
      = x.d0 * x.d1 * (k.heads * k.head_dim)) :
    splitHeads k.heads k.head_dim (chunkV k.embed_size (qkvT k x))
      = some (vT k x) := by
  unfold splitHeads chunkV qkvT
  dsimp only
  rw [if_pos hsplit]
  rfl

lemma scoresOf_eq (k : SelfAttention R) (x : T3 R) :
    scoresOf k.scale (qT k x) (kT k x) = scoresT k x := rfl

lemma applyMask_eq (k : SelfAttention R) (x : T3 R) (mask : Option TMask)
    (hm : maskOK mask [x.d0, k.heads, x.d1, x.d1] = true) :
    applyMask mask (scoresT k x) = some (msT k x mask) := by
  cases mask with
  | none => rfl
  | some m =>
    show maskFill m (scoresT k x) = some (msT k x (some m))
    unfold maskFill
    have hb : bcastOK m.dims
        [(scoresT k x).d0, (scoresT k x).d1, (scoresT k x).d2,
          (scoresT k x).d3] = true := hm
    rw [if_pos hb]
    rfl

lemma maskedScores_eq (k : SelfAttention R) (x : T3 R) (mask : Option TMask)
    (hd2 : x.d2 = k.embed_size)
    (hsplit : x.d0 * x.d1 * k.embed_size
      = x.d0 * x.d1 * (k.heads * k.head_dim))
    (hm : maskOK mask [x.d0, k.heads, x.d1, x.d1] = true) :
    maskedScores k x mask = some (msT k x mask) := by
  simp only [maskedScores, Option.bind_eq_bind, toQKV_eq k x hd2,
    Option.some_bind, splitQ_eq k x hsplit, splitK_eq k x hsplit,
    scoresOf_eq]
  exact applyMask_eq k x mask hm

lemma attnWeights_eq (rexp : R → R) (k : SelfAttention R) (x : T3 R)
    (mask : Option TMask) (hd2 : x.d2 = k.embed_size)
    (hsplit : x.d0 * x.d1 * k.embed_size
      = x.d0 * x.d1 * (k.heads * k.head_dim))
    (hm : maskOK mask [x.d0, k.heads, x.d1, x.d1] = true) :
    attnWeights rexp k x mask = some (wT rexp k x mask) := by
  unfold attnWeights
  rw [maskedScores_eq k x mask hd2 hsplit hm]
  rfl

lemma toOut_eq (rexp : R → R) (k : SelfAttention R) (x : T3 R)
    (mask : Option TMask) :
    linearT3 k.to_out_w k.to_out_b k.embed_size k.embed_size
      (mergeHeads k.embed_size k.head_dim (ctxT rexp k x mask))
      = some (outT rexp k x mask) := by
  unfold linearT3 mergeHeads
  dsimp only
  rw [if_pos rfl]
  rfl

lemma forward_eq (rexp : R → R) (k : SelfAttention R) (x : T3 R)
    (mask : Option TMask) (hd2 : x.d2 = k.embed_size)
    (hsplit : x.d0 * x.d1 * k.embed_size
      = x.d0 * x.d1 * (k.heads * k.head_dim))
    (hm : maskOK mask [x.d0, k.heads, x.d1, x.d1] = true) :
    forward rexp k x mask = some (outT rexp k x mask) := by
  simp only [forward, Option.bind_eq_bind, toQKV_eq k x hd2,
    Option.some_bind, splitQ_eq k x hsplit, splitK_eq k x hsplit,
    splitV_eq k x hsplit, scoresOf_eq, applyMask_eq k x mask hm]
  exact toOut_eq rexp k x mask

end PipelineLemmas

section UtilityLemmas

variable {R : Type} [Field R]

lemma sum_perm {M : Type} [AddCommMonoid M] (S : ℕ) (π : Equiv.Perm ℕ)
    (hπ : ∀ i, π i < S ↔ i < S) (f : ℕ → M) :
    ∑ j in Finset.range S, f (π j) = ∑ j in Finset.range S, f j :=
  Finset.sum_equiv π (by simp [Finset.mem_range, hπ]) (fun i _ => rfl)

lemma softmax_row (t : T4 ℝ) (b h i : ℕ) (hS : 0 < t.d3) :
    (∑ j in Finset.range t.d3, (softmaxLast Real.exp t).data b h i j) = 1 ∧
      ∀ j, j < t.d3 → 0 ≤ (softmaxLast Real.exp t).data b h i j ∧
        (softmaxLast Real.exp t).data b h i j ≤ 1 := by
  have hZ : 0 < ∑ l in Finset.range t.d3, Real.exp (t.data b h i l) :=
    Finset.sum_pos (fun l _ => Real.exp_pos _)
      (Finset.nonempty_range_iff.mpr hS.ne')
  constructor
  · show (∑ j in Finset.range t.d3,
      Real.exp (t.data b h i j) /
        ∑ l in Finset.range t.d3, Real.exp (t.data b h i l)) = 1
    rw [← Finset.sum_div, div_self hZ.ne']
  · intro j hj
    constructor
    · exact div_nonneg (Real.exp_pos _).le hZ.le
    · show Real.exp (t.data b h i j) /
        (∑ l in Finset.range t.d3, Real.exp (t.data b h i l)) ≤ 1
      rw [div_le_one hZ]
      exact Finset.single_le_sum (fun l _ => (Real.exp_pos _).le)
        (Finset.mem_range.mpr hj)

lemma attnWeights_inv {rexp : R → R} {k : SelfAttention R} {x : T3 R}
    {mask : Option TMask} {w : T4 R}
    (h : attnWeights rexp k x mask = some w) :
    ∃ t, maskedScores k x mask = some t ∧ w = softmaxLast rexp t := by
  cases hms : maskedScores k x mask with
  | none => rw [attnWeights, hms] at h; cases h
  | some t =>
    rw [attnWeights, hms] at h
    exact ⟨t, rfl, (Option.some_injective _ h).symm⟩

lemma linearT3_shape {W : Nat → Nat → R} {bias : Nat → R} {outF inF : Nat}
    {t y : T3 R} (h : linearT3 W bias outF inF t = some y) :
    y.d0 = t.d0 ∧ y.d1 = t.d1 ∧ y.d2 = outF := by
  unfold linearT3 at h
  split at h
  · injection h with h2
    subst h2
    exact ⟨rfl, rfl, rfl⟩
  · cases h

lemma forward_none_of_d2 (rexp : R → R) (k : SelfAttention R) (x : T3 R)
    (mask : Option TMask) (h : ¬ x.d2 = k.embed_size) :
    forward rexp k x mask = none := by
  unfold forward linearT3
  rw [if_neg h]
  rfl

lemma maskFill_none {m : TMask} {t : T4 R}
    (hb : ¬ bcastOK m.dims [t.d0, t.d1, t.d2, t.d3] = true) :
    maskFill m t = none := by
  unfold maskFill
  rw [if_neg hb]

lemma forward_none_of_mask (rexp : R → R) (k : SelfAttention R) (x : T3 R)
    (m : TMask) (hd2 : x.d2 = k.embed_size)
    (hsplit : x.d0 * x.d1 * k.embed_size
      = x.d0 * x.d1 * (k.heads * k.head_dim))
    (hb : bcastOK m.dims [x.d0, k.heads, x.d1, x.d1] = false) :
    forward rexp k x (some m) = none := by
  have hb2 : ¬ bcastOK m.dims [(scoresT k x).d0, (scoresT k x).d1,
      (scoresT k x).d2, (scoresT k x).d3] = true := by
    intro hcontra
    rw [show bcastOK m.dims [(scoresT k x).d0, (scoresT k x).d1,
      (scoresT k x).d2, (scoresT k x).d3]
        = bcastOK m.dims [x.d0, k.heads, x.d1, x.d1] from rfl, hb] at hcontra
    cases hcontra
  have hap : applyMask (some m) (scoresT k x) = none := maskFill_none hb2
  simp only [forward, Option.bind_eq_bind, toQKV_eq k x hd2,
    Option.some_bind, splitQ_eq k x hsplit, splitK_eq k x hsplit,
    splitV_eq k x hsplit, scoresOf_eq, hap, Option.none_bind]

lemma forward_some_inv {rexp : R → R} {k : SelfAttention R} {x : T3 R}
    {mask : Option TMask} {y : T3 R}
    (h : forward rexp k x mask = some y) :
    (attnWeights rexp k x mask).isSome = true ∧ y.d2 = k.embed_size := by
  unfold forward at h
  simp only [Option.bind_eq_bind] at h
  cases h0 : linearT3 k.to_qkv_w k.to_qkv_b (3 * k.embed_size)
      k.embed_size x with
  | none => rw [h0, Option.none_bind] at h; cases h
  | some qkv =>
  rw [h0, Option.some_bind] at h
  cases h1 : splitHeads k.heads k.head_dim (chunkQ k.embed_size qkv) with
  | none => rw [h1, Option.none_bind] at h; cases h
  | some q =>
  rw [h1, Option.some_bind] at h
  cases h2 : splitHeads k.heads k.head_dim (chunkK k.embed_size qkv) with
  | none => rw [h2, Option.none_bind] at h; cases h
  | some kk =>
  rw [h2, Option.some_bind] at h
  cases h3 : splitHeads k.heads k.head_dim (chunkV k.embed_size qkv) with
  | none => rw [h3, Option.none_bind] at h; cases h
  | some v =>
  rw [h3, Option.some_bind] at h
  cases h4 : applyMask mask (scoresOf k.scale q kk) with
  | none => rw [h4, Option.none_bind] at h; cases h
  | some ms =>
  rw [h4, Option.some_bind] at h
  constructor
  · have hms : maskedScores k x mask = some ms := by
      simp only [maskedScores, Option.bind_eq_bind, h0, Option.some_bind,
        h1, h2, h4]
    rw [attnWeights, hms]
    rfl
  · exact (linearT3_shape h).2.2

end UtilityLemmas

/-!
## Claims
-/

/-- Claim C1 (confirmed): for a kernel constructed from a valid
configuration (positive `embed_size`, positive `heads` dividing
`embed_size`, `head_dim` the floor quotient) and any embedding batch whose
trailing dimension is `embed_size` and whose sequence length is at least 1
(plus any broadcast-compatible optional mask), the forward transform
succeeds and the output batch has exactly the shape of the input batch. -/
theorem claim_C1 (k : SelfAttention ℝ) (x : T3 ℝ) (mask : Option TMask)
    (h0E : 0 < k.embed_size) (h0H : 0 < k.heads)
    (hdvd : k.heads ∣ k.embed_size)
    (hdim : k.head_dim = k.embed_size / k.heads)
    (hd2 : x.d2 = k.embed_size) (hS : 0 < x.d1)
    (hm : maskOK mask [x.d0, k.heads, x.d1, x.d1] = true) :
    Option.map (fun y => (y.d0, y.d1, y.d2)) (forward Real.exp k x mask)
      = some (x.d0, x.d1, x.d2) := by
  have hHD : k.heads * k.head_dim = k.embed_size := by
    rw [hdim]; exact Nat.mul_div_cancel' hdvd
  rw [forward_eq Real.exp k x mask hd2 (by rw [hHD]) hm]
  simp only [Option.map_some']
  show some (x.d0, x.d1, k.embed_size) = some (x.d0, x.d1, x.d2)
  rw [hd2]

/-- Witness for C1 at a concrete valid kernel and input. -/
theorem claim_C1_witness :
    Option.map (fun y : T3 ℝ => (y.d0, y.d1, y.d2))
      (forward Real.exp (kA ℝ) (xA ℝ) none) = some (1, 2, 1) :=
  claim_C1 (kA ℝ) (xA ℝ) none (by decide) (by decide) (by decide)
    (by decide) rfl (by decide) rfl

/-- Claim C2 (confirmed): whenever the attention-weight tensor is produced,
every row (fixed batch, head, query index, with at least one allowed key
position) of nonzero length sums to exactly 1 — hence in particular to 1
within the 1e-5 tolerance — and every entry lies in the closed interval
[0, 1].  In the exact-real model the row sum is exactly 1. -/
theorem claim_C2 (k : SelfAttention ℝ) (x : T3 ℝ) (mask : Option TMask)
    (w : T4 ℝ) (b h i : ℕ)
    (hw : attnWeights Real.exp k x mask = some w) (hS : 0 < w.d3)
    (hrow : ∃ j, j < w.d3 ∧ forbidden mask b h i j = false) :
    (∑ j in Finset.range w.d3, w.data b h i j) = 1 ∧
      |(∑ j in Finset.range w.d3, w.data b h i j) - 1| ≤ 1 / 100000 ∧
      ∀ j, j < w.d3 → 0 ≤ w.data b h i j ∧ w.data b h i j ≤ 1 := by
  obtain ⟨t, _, rfl⟩ := attnWeights_inv hw
  have hS2 : 0 < t.d3 := hS
  obtain ⟨hsum, hent⟩ := softmax_row t b h i hS2
  refine ⟨hsum, ?_, fun j hj => hent j hj⟩
  rw [show (∑ j in Finset.range (softmaxLast Real.exp t).d3,
    (softmaxLast Real.exp t).data b h i j) = 1 from hsum]
  norm_num

/-- Witness for C2 at a concrete kernel and input (maskless, row 0). -/
theorem claim_C2_witness :
    (∑ j in Finset.range
        ((attnWeights Real.exp (kA ℝ) (xA ℝ) none).getD (dT4 ℝ)).d3,
      ((attnWeights Real.exp (kA ℝ) (xA ℝ) none).getD (dT4 ℝ)).data 0 0 0 j)
      = 1 :=
  (claim_C2 (kA ℝ) (xA ℝ) none
    ((attnWeights Real.exp (kA ℝ) (xA ℝ) none).getD (dT4 ℝ)) 0 0 0
    rfl (by decide) ⟨0, by decide, rfl⟩).1

/-- Claim C4 is corrected: an all-forbidden row does NOT make the forward
transform fail — the source has no `AllPositionsMaskedError` and no raise
statement at all; the sentinel turns the row into a uniform softmax and
the call returns an output.  Counterexample: a mask forbidding every
(query, key) pair, on which `forward` still returns a value. -/
theorem claim_C4_counterexample :
    maskLookup mA [0, 0, 0, 0] = false ∧ maskLookup mA [0, 0, 0, 1] = false ∧
    (forward Real.exp (kA ℝ) (xA ℝ) (some mA)).isSome = true :=
  ⟨rfl, rfl, rfl⟩

/-- Claim C4 (amended): when the supplied mask is broadcast-compatible and
the shapes are valid, the forward transform returns an output even if the
mask forbids every key position of some (batch, head, query) row; no
error is raised. -/
theorem claim_C4 (k : SelfAttention ℝ) (x : T3 ℝ) (m : TMask) (b h i : ℕ)
    (hd2 : x.d2 = k.embed_size)
    (hHD : k.heads * k.head_dim = k.embed_size)
    (hbc : bcastOK m.dims [x.d0, k.heads, x.d1, x.d1] = true)
    (hall : ∀ j, j < x.d1 → maskLookup m [b, h, i, j] = false) :
    (forward Real.exp k x (some m)).isSome = true := by
  rw [forward_eq Real.exp k x (some m) hd2 (by rw [hHD]) hbc]
  rfl

/-- Witness for the amended C4 at a concrete all-forbidding mask. -/
theorem claim_C4_witness :
    (forward Real.exp (kA ℝ) (xA ℝ) (some mA)).isSome = true :=
  claim_C4 (kA ℝ) (xA ℝ) mA 0 0 0 rfl rfl (by decide) (fun _ _ => rfl)

/-- Claim C5 is corrected: construction performs no validation at all and
never raises a `ConfigurationError`; with `embed_dim = 8`, `head_count = 3`
it succeeds, producing `head_dim = 8 // 3 = 2`. -/
theorem claim_C5_counterexample :
    Option.map SelfAttention.head_dim
      (SelfAttention.init Real.sqrt 8 3 (Wz ℝ) (bz ℝ) (Wz ℝ) (bz ℝ))
      = some 2 := rfl

/-- Claim C5 (amended): construction never checks divisibility or raises a
`ConfigurationError`.  With `embed_dim = 8`, `head_count = 3` it succeeds
with `head_dim = 2` (floor division), and the incompatibility only
surfaces when `forward` is called on that kernel, which then fails (a
`view` element-count error in the head split).  Construction fails (with
a Python `ZeroDivisionError`, modelled as `none`) exactly when
`embed_dim / head_count = 0`, i.e. when `head_count = 0` or
`head_count > embed_dim`. -/
theorem claim_C5 :
    (∀ (sq : ℝ → ℝ) (W1 : ℕ → ℕ → ℝ) (b1 : ℕ → ℝ) (W2 : ℕ → ℕ → ℝ)
        (b2 : ℕ → ℝ),
      Option.map SelfAttention.head_dim
        (SelfAttention.init sq 8 3 W1 b1 W2 b2) = some 2) ∧
    (∀ (sq : ℝ → ℝ) (W1 : ℕ → ℕ → ℝ) (b1 : ℕ → ℝ) (W2 : ℕ → ℕ → ℝ)
        (b2 : ℕ → ℝ) (x : T3 ℝ) (kk : SelfAttention ℝ),
      x.d0 = 1 → x.d1 = 2 → x.d2 = 8 →
      SelfAttention.init sq 8 3 W1 b1 W2 b2 = some kk →
      forward Real.exp kk x none = none) ∧
    (∀ (sq : ℝ → ℝ) (E H : ℕ) (W1 : ℕ → ℕ → ℝ) (b1 : ℕ → ℝ)
        (W2 : ℕ → ℕ → ℝ) (b2 : ℕ → ℝ),
      SelfAttention.init sq E H W1 b1 W2 b2 = none ↔ E / H = 0) := by
  refine ⟨fun sq W1 b1 W2 b2 => rfl, ?_, ?_⟩
  · intro sq W1 b1 W2 b2 x kk h0 h1 h2 hinit
    unfold SelfAttention.init at hinit
    rw [if_neg (by decide : ¬ (8 / 3 = 0))] at hinit
    injection hinit with h3
    subst h3
    have hq : splitHeads 3 2
        (chunkQ 8 (qkvT (⟨8, 3, 8 / 3, (sq (((8 / 3 : ℕ) : ℝ)))⁻¹,
          W1, b1, W2, b2⟩ : SelfAttention ℝ) x)) = none := by
      unfold splitHeads chunkQ qkvT
      dsimp only
      rw [if_neg]
      rw [h0, h1]
      decide
    simp only [forward, Option.bind_eq_bind]
    rw [show linearT3 W1 b1 (3 * 8) 8 x =
      some (qkvT (⟨8, 3, 8 / 3, (sq (((8 / 3 : ℕ) : ℝ)))⁻¹,
        W1, b1, W2, b2⟩ : SelfAttention ℝ) x)
      from toQKV_eq (⟨8, 3, 8 / 3, (sq (((8 / 3 : ℕ) : ℝ)))⁻¹,
        W1, b1, W2, b2⟩ : SelfAttention ℝ) x h2]
    rw [Option.some_bind]
    rw [show splitHeads 3 (8 / 3) _ = none from hq]
    rfl
  · intro sq E H W1 b1 W2 b2
    by_cases h : E / H = 0 <;> simp [SelfAttention.init, h]

/-- Witness for the amended C5: the 8/3 kernel is constructed, its forward
fails on a (1, 2, 8) batch, and a configuration with zero quotient fails
at construction. -/
theorem claim_C5_witness :
    forward Real.exp
      ((SelfAttention.init Real.sqrt 8 3 (Wz ℝ) (bz ℝ) (Wz ℝ) (bz ℝ)).getD
        (kA ℝ)) (x83 ℝ) none = none ∧
    SelfAttention.init Real.sqrt 0 3 (Wz ℝ) (bz ℝ) (Wz ℝ) (bz ℝ) = none :=
  ⟨claim_C5.2.1 Real.sqrt (Wz ℝ) (bz ℝ) (Wz ℝ) (bz ℝ) (x83 ℝ) _
      rfl rfl rfl rfl,
   (claim_C5.2.2 Real.sqrt 0 3 (Wz ℝ) (bz ℝ) (Wz ℝ) (bz ℝ)).mpr rfl⟩

/-- Claim C6 is corrected: a zero-length sequence does NOT make the
forward transform fail — it returns an (empty) output batch of shape
`(B, 0, embed_size)`. -/
theorem claim_C6_counterexample :
    (forward Real.exp (kA ℝ) (x60 ℝ) none).isSome = true ∧
    Option.map (fun y : T3 ℝ => (y.d0, y.d1, y.d2))
      (forward Real.exp (kA ℝ) (x60 ℝ) none) = some (1, 0, 1) :=
  ⟨rfl, rfl⟩

/-- Claim C6 (amended): the forward transform fails when the trailing
dimension of the embeddings differs from `embed_size`; and, on positive
batch, sequence and embedding dimensions, it fails when the supplied
(rank at most 4) mask does not broadcast into the score shape
`(B, heads, S, S)` — in the program either `masked_fill` itself raises
(mutually incompatible shapes), or, since the out-of-place `masked_fill`
expands both operands, the strictly enlarged scores make the final
`reshape` or the `attn_weights @ v` matmul raise.  All of these are
untyped library shape errors (modelled `none`); the source has no typed
`ShapeMismatchError`.  A zero-length sequence, however, does not fail: it
yields an empty output of shape `(B, 0, embed_size)`.  The positivity
hypotheses delimit the mask conjunct to the domain where the program also
fails (with a zero-sized dimension an enlarging mask can flow through on
empty tensors); masks of rank above 4 expand the scores beyond rank 4 and
are outside this rank-4 model. -/
theorem claim_C6 :
    (∀ (k : SelfAttention ℝ) (x : T3 ℝ) (mask : Option TMask),
      ¬ x.d2 = k.embed_size → forward Real.exp k x mask = none) ∧
    (∀ (k : SelfAttention ℝ) (x : T3 ℝ) (m : TMask),
      x.d2 = k.embed_size →
      k.heads * k.head_dim = k.embed_size →
      0 < x.d0 → 0 < x.d1 → 0 < k.embed_size →
      bcastOK m.dims [x.d0, k.heads, x.d1, x.d1] = false →
      forward Real.exp k x (some m) = none) ∧
    (∀ (k : SelfAttention ℝ) (x : T3 ℝ),
      x.d2 = k.embed_size → x.d1 = 0 →
      Option.map (fun y => (y.d0, y.d1, y.d2)) (forward Real.exp k x none)
        = some (x.d0, 0, k.embed_size)) := by
  refine ⟨fun k x mask h => forward_none_of_d2 Real.exp k x mask h,
    fun k x m hd2 hHD _ _ _ hb =>
      forward_none_of_mask Real.exp k x m hd2 (by rw [hHD]) hb,
    fun k x hd2 hS0 => ?_⟩
  rw [forward_eq Real.exp k x none hd2 (by rw [hS0]; simp) rfl]
  simp only [Option.map_some']
  show some (x.d0, x.d1, k.embed_size) = some (x.d0, 0, k.embed_size)
  rw [hS0]

/-- Witness for the amended C6 on concrete failing and succeeding inputs. -/
theorem claim_C6_witness :
    forward Real.exp (kA ℝ) (xbad ℝ) none = none ∧
    forward Real.exp (kA ℝ) (xA ℝ) (some mbad) = none ∧
    Option.map (fun y : T3 ℝ => (y.d0, y.d1, y.d2))
      (forward Real.exp (kA ℝ) (x60 ℝ) none) = some (1, 0, 1) :=
  ⟨claim_C6.1 (kA ℝ) (xbad ℝ) none (by decide),
   claim_C6.2.1 (kA ℝ) (xA ℝ) mbad rfl rfl (by decide) (by decide)
     (by decide) (by decide),
   claim_C6.2.2 (kA ℝ) (x60 ℝ) rfl rfl⟩

/-- Claim C7 is corrected: the sole entry point `forward(self, x, mask)`
accepts no `return_weights` flag at all. -/
theorem claim_C7_counterexample : "return_weights" ∉ forwardParams := by
  decide

/-- Claim C7 (amended): the sole entry point is `forward(self, x, mask)`;
it accepts no `return_weights` flag and always returns only the output
batch (trailing dimension `embed_size`); the attention weights are
computed internally on every successful call (as `attnWeights`) but are
never part of the return value. -/
theorem claim_C7 :
    forwardParams = ["self", "x", "mask"] ∧
    ("return_weights" ∉ forwardParams) ∧
    ∀ (k : SelfAttention ℝ) (x : T3 ℝ) (mask : Option TMask) (y : T3 ℝ),
      forward Real.exp k x mask = some y →
      y.d2 = k.embed_size ∧ (attnWeights Real.exp k x mask).isSome = true :=
  ⟨rfl, by decide, fun k x mask y h =>
    ⟨(forward_some_inv h).2, (forward_some_inv h).1⟩⟩

/-- Witness for the amended C7 at a concrete successful call. -/
theorem claim_C7_witness :
    ((forward Real.exp (kA ℝ) (xA ℝ) none).getD (dT3 ℝ)).d2
      = (kA ℝ).embed_size :=
  (claim_C7.2.2 (kA ℝ) (xA ℝ) none
    ((forward Real.exp (kA ℝ) (xA ℝ) none).getD (dT3 ℝ)) rfl).1

/-- Claim C10 (confirmed): when the supplied mask forbids every key
position of a row `(b, h, i)`, the forward transform does not fail: every
score of that row becomes the finite sentinel `-1e9`, the softmax of the
row is the uniform distribution `1/S`, and the aggregation returns the
unweighted mean of the value vectors.  In the exact-real model every
intermediate value is a well-defined real number, so the result is
finite and NaN-free. -/
theorem claim_C10 (k : SelfAttention ℝ) (x : T3 ℝ) (m : TMask) (b h i : ℕ)
    (hd2 : x.d2 = k.embed_size)
    (hHD : k.heads * k.head_dim = k.embed_size)
    (hbc : bcastOK m.dims [x.d0, k.heads, x.d1, x.d1] = true)
    (hi : i < x.d1)
    (hall : ∀ j, j < x.d1 → maskLookup m [b, h, i, j] = false) :
    maskedScores k x (some m) = some (msT k x (some m)) ∧
    (∀ j, j < x.d1 → (msT k x (some m)).data b h i j = -1000000000) ∧
    attnWeights Real.exp k x (some m) = some (wT Real.exp k x (some m)) ∧
    (∀ j, j < x.d1 → (wT Real.exp k x (some m)).data b h i j
      = 1 / (x.d1 : ℝ)) ∧
    (∀ d, (ctxT Real.exp k x (some m)).data b h i d
      = (∑ j in Finset.range x.d1, (vT k x).data b h j d) / (x.d1 : ℝ)) ∧
    (forward Real.exp k x (some m)).isSome = true := by
  have hsplit : x.d0 * x.d1 * k.embed_size
      = x.d0 * x.d1 * (k.heads * k.head_dim) := by rw [hHD]
  have hmdata : ∀ j, j < x.d1 →
      (msT k x (some m)).data b h i j = -1000000000 := by
    intro j hj
    show (if maskLookup m [b, h, i, j] then (scoresT k x).data b h i j
      else -(1000000000 : ℝ)) = -1000000000
    rw [hall j hj]
    simp
  have hx1 : (0 : ℝ) < (x.d1 : ℝ) := by
    exact_mod_cast lt_of_le_of_lt (Nat.zero_le i) hi
  have hZ : (∑ l in Finset.range x.d1,
      Real.exp ((msT k x (some m)).data b h i l))
      = (x.d1 : ℝ) * Real.exp (-1000000000) := by
    rw [Finset.sum_congr rfl (fun l hl => by
      rw [hmdata l (Finset.mem_range.mp hl)])]
    rw [Finset.sum_const, Finset.card_range, nsmul_eq_mul]
  have hwdata : ∀ j, j < x.d1 →
      (wT Real.exp k x (some m)).data b h i j = 1 / (x.d1 : ℝ) := by
    intro j hj
    show Real.exp ((msT k x (some m)).data b h i j) /
      (∑ l in Finset.range x.d1,
        Real.exp ((msT k x (some m)).data b h i l)) = 1 / (x.d1 : ℝ)
    rw [hmdata j hj, hZ, mul_comm, ← div_div,
      div_self (Real.exp_ne_zero _)]
  refine ⟨maskedScores_eq k x (some m) hd2 hsplit hbc, hmdata,
    attnWeights_eq Real.exp k x (some m) hd2 hsplit hbc, hwdata,
    ?_, ?_⟩
  · intro d
    show (∑ j in Finset.range x.d1,
      (wT Real.exp k x (some m)).data b h i j * (vT k x).data b h j d)
      = (∑ j in Finset.range x.d1, (vT k x).data b h j d) / (x.d1 : ℝ)
    rw [Finset.sum_congr rfl (fun j hj => by
      rw [hwdata j (Finset.mem_range.mp hj), one_div, inv_mul_eq_div,
        div_eq_mul_inv])]
    rw [← Finset.sum_mul, ← div_eq_mul_inv]
  · rw [forward_eq Real.exp k x (some m) hd2 hsplit hbc]
    rfl

/-- Witness for C10 at a concrete all-forbidding mask: the weight rows are
uniform and the call succeeds. -/
theorem claim_C10_witness :
    (wT Real.exp (kA ℝ) (xA ℝ) (some mA)).data 0 0 0 0
      = 1 / ((xA ℝ).d1 : ℝ) ∧
    (forward Real.exp (kA ℝ) (xA ℝ) (some mA)).isSome = true :=
  ⟨(claim_C10 (kA ℝ) (xA ℝ) mA 0 0 0 rfl rfl (by decide) (by decide)
      (fun _ _ => rfl)).2.2.2.1 0 (by decide),
   (claim_C10 (kA ℝ) (xA ℝ) mA 0 0 0 rfl rfl (by decide) (by decide)
      (fun _ _ => rfl)).2.2.2.2.2⟩

section MaskLemmas

variable {R : Type} [Field R]

lemma maskedScores_fill {k : SelfAttention R} {x : T3 R} {m : TMask}
    {t : T4 R} (h : maskedScores k x (some m) = some t) :
    ∀ b hh i j, maskLookup m [b, hh, i, j] = false →
      t.data b hh i j = -(1000000000 : R) := by
  unfold maskedScores at h
  simp only [Option.bind_eq_bind] at h
  cases h0 : linearT3 k.to_qkv_w k.to_qkv_b (3 * k.embed_size)
      k.embed_size x with
  | none => rw [h0, Option.none_bind] at h; cases h
  | some qkv =>
  rw [h0, Option.some_bind] at h
  cases h1 : splitHeads k.heads k.head_dim (chunkQ k.embed_size qkv) with
  | none => rw [h1, Option.none_bind] at h; cases h
  | some q =>
  rw [h1, Option.some_bind] at h
  cases h2 : splitHeads k.heads k.head_dim (chunkK k.embed_size qkv) with
  | none => rw [h2, Option.none_bind] at h; cases h
  | some kk =>
  rw [h2, Option.some_bind] at h
  have h3 : maskFill m (scoresOf k.scale q kk) = some t := h
  unfold maskFill at h3
  split at h3
  · injection h3 with h4
    subst h4
    intro b hh i j hlook
    show (if maskLookup m [b, hh, i, j] then
      (scoresOf k.scale q kk).data b hh i j else -(1000000000 : R))
      = -(1000000000 : R)
    rw [hlook]
    simp
  · cases h3

end MaskLemmas

lemma mass_bound (m : TMask) (t : T4 ℝ) (b h i j0 : ℕ)
    (hfill : ∀ j, maskLookup m [b, h, i, j] = false →
      t.data b h i j = -1000000000)
    (hj0 : j0 < t.d3) (hallow : maskLookup m [b, h, i, j0] = true)
    (hscore : -1000000000 + Real.log (1000000 * (t.d3 : ℝ))
      ≤ t.data b h i j0) :
    forbiddenMass (some m) (softmaxLast Real.exp t) b h i ≤ 1 / 1000000 := by
  have hSpos : (0 : ℝ) < (t.d3 : ℝ) := by
    exact_mod_cast lt_of_le_of_lt (Nat.zero_le j0) hj0
  set Z := ∑ l in Finset.range t.d3, Real.exp (t.data b h i l) with hZdef
  have hZpos : 0 < Z :=
    Finset.sum_pos (fun l _ => Real.exp_pos _)
      ⟨j0, Finset.mem_range.mpr hj0⟩
  have hZ1 : Real.exp (t.data b h i j0) ≤ Z :=
    Finset.single_le_sum (fun l _ => (Real.exp_pos _).le)
      (Finset.mem_range.mpr hj0)
  have hZ2 : Real.exp (-1000000000) * (1000000 * (t.d3 : ℝ)) ≤ Z := by
    calc Real.exp (-1000000000) * (1000000 * (t.d3 : ℝ))
        = Real.exp (-1000000000 + Real.log (1000000 * (t.d3 : ℝ))) := by
          rw [Real.exp_add, Real.exp_log (by positivity)]
      _ ≤ Real.exp (t.data b h i j0) := Real.exp_le_exp.mpr hscore
      _ ≤ Z := hZ1
  have hterm : ∀ j ∈ Finset.range t.d3,
      (if forbidden (some m) b h i j then
        (softmaxLast Real.exp t).data b h i j else 0)
      ≤ Real.exp (-1000000000) / Z := by
    intro j _
    by_cases hf : forbidden (some m) b h i j
    · rw [if_pos hf]
      have hlook : maskLookup m [b, h, i, j] = false := by
        have hf2 : (!maskLookup m [b, h, i, j]) = true := hf
        cases hcase : maskLookup m [b, h, i, j] with
        | false => rfl
        | true => rw [hcase] at hf2; cases hf2
      show Real.exp (t.data b h i j) / Z ≤ Real.exp (-1000000000) / Z
      rw [hfill j hlook]
    · rw [if_neg hf]
      positivity
  calc forbiddenMass (some m) (softmaxLast Real.exp t) b h i
      ≤ ∑ j in Finset.range t.d3, Real.exp (-1000000000) / Z :=
        Finset.sum_le_sum hterm
    _ = (t.d3 : ℝ) * (Real.exp (-1000000000) / Z) := by
        rw [Finset.sum_const, Finset.card_range, nsmul_eq_mul]
    _ = ((t.d3 : ℝ) * Real.exp (-1000000000)) / Z := by ring
    _ ≤ 1 / 1000000 := by
        rw [div_le_iff₀ hZpos]
        calc (t.d3 : ℝ) * Real.exp (-1000000000)
            = (1 / 1000000) *
              (Real.exp (-1000000000) * (1000000 * (t.d3 : ℝ))) := by ring
          _ ≤ (1 / 1000000) * Z := by
              exact mul_le_mul_of_nonneg_left hZ2 (by norm_num)

/-- Claim C3 is corrected: the first half holds (every forbidden score is
replaced by the finite sentinel `-1e9` before the softmax), but the
universally quantified mass bound fails: if the allowed scores of a row
are themselves at or below the sentinel, the forbidden keys keep
substantial weight.  Concretely, with weights making `q = 1`, `k = x` and
input values `(0, -1e9)`, the row 0 with key 0 forbidden and key 1 allowed
puts weight `1/2 > 1e-6` on the forbidden key. -/
theorem claim_C3_counterexample :
    forbidden (some m1) 0 0 0 0 = true ∧
    forbidden (some m1) 0 0 0 1 = false ∧
    maskedScores (kC3 ℝ) (xC3 ℝ) (some m1)
      = some (msT (kC3 ℝ) (xC3 ℝ) (some m1)) ∧
    1 / 1000000 <
      forbiddenMass (some m1)
        (softmaxLast Real.exp (msT (kC3 ℝ) (xC3 ℝ) (some m1))) 0 0 0 := by
  refine ⟨rfl, rfl, maskedScores_eq (kC3 ℝ) (xC3 ℝ) (some m1) rfl rfl rfl,
    ?_⟩
  have h00 : (msT (kC3 ℝ) (xC3 ℝ) (some m1)).data 0 0 0 0
      = -1000000000 := rfl
  have h01 : (msT (kC3 ℝ) (xC3 ℝ) (some m1)).data 0 0 0 1
      = -1000000000 := by
    show (if maskLookup m1 [0, 0, 0, 1] then
      (scoresT (kC3 ℝ) (xC3 ℝ)).data 0 0 0 1 else -(1000000000 : ℝ))
      = -1000000000
    rw [if_pos (show maskLookup m1 [0, 0, 0, 1] = true from rfl)]
    show (∑ d in Finset.range 1,
      (qT (kC3 ℝ) (xC3 ℝ)).data 0 0 0 d *
        (kT (kC3 ℝ) (xC3 ℝ)).data 0 0 1 d) * (kC3 ℝ).scale = -1000000000
    rw [Finset.sum_range_one]
    show ((qkvT (kC3 ℝ) (xC3 ℝ)).data 0 0 0 *
      (qkvT (kC3 ℝ) (xC3 ℝ)).data 0 1 1) * 1 = -1000000000
    have hq : (qkvT (kC3 ℝ) (xC3 ℝ)).data 0 0 0 = 1 := by
      show (∑ e in Finset.range 1,
        (xC3 ℝ).data 0 0 e * (kC3 ℝ).to_qkv_w 0 e) + (kC3 ℝ).to_qkv_b 0 = 1
      rw [Finset.sum_range_one]
      norm_num [kC3, xC3]
    have hk : (qkvT (kC3 ℝ) (xC3 ℝ)).data 0 1 1 = -1000000000 := by
      show (∑ e in Finset.range 1,
        (xC3 ℝ).data 0 1 e * (kC3 ℝ).to_qkv_w 1 e) + (kC3 ℝ).to_qkv_b 1
        = -1000000000
      rw [Finset.sum_range_one]
      norm_num [kC3, xC3]
    rw [hq, hk]
    norm_num
  have hmass : forbiddenMass (some m1)
      (softmaxLast Real.exp (msT (kC3 ℝ) (xC3 ℝ) (some m1))) 0 0 0
      = (softmaxLast Real.exp (msT (kC3 ℝ) (xC3 ℝ) (some m1))).data 0 0 0 0
      := by
    show (∑ j in Finset.range 2, if forbidden (some m1) 0 0 0 j then
      (softmaxLast Real.exp (msT (kC3 ℝ) (xC3 ℝ) (some m1))).data 0 0 0 j
      else 0) = _
    rw [Finset.sum_range_succ, Finset.sum_range_one,
      if_pos (show forbidden (some m1) 0 0 0 0 = true from rfl),
      if_neg (show ¬ forbidden (some m1) 0 0 0 1 = true from by decide)]
    rw [add_zero]
  have hval : (softmaxLast Real.exp
      (msT (kC3 ℝ) (xC3 ℝ) (some m1))).data 0 0 0 0 = 1 / 2 := by
    show Real.exp ((msT (kC3 ℝ) (xC3 ℝ) (some m1)).data 0 0 0 0) /
      (∑ l in Finset.range 2,
        Real.exp ((msT (kC3 ℝ) (xC3 ℝ) (some m1)).data 0 0 0 l)) = 1 / 2
    rw [Finset.sum_range_succ, Finset.sum_range_one, h00, h01, ← two_mul,
      mul_comm, ← div_div, div_self (Real.exp_ne_zero _)]
  rw [hmass, hval]
  norm_num

/-- Claim C3 (amended): whenever the mask is applied, every score at a
forbidden (query, key) position is replaced by the finite sentinel `-1e9`
before the softmax; and for every row that has at least one allowed key
whose (post-mask, hence pre-mask) score is at least
`-1e9 + log(1e6 * S)`, the post-softmax weight mass on forbidden keys is
at most `1e-6`.  The score floor on some allowed key is forced by the
counterexample: it is satisfied by any realistic score scale. -/
theorem claim_C3 (k : SelfAttention ℝ) (x : T3 ℝ) (m : TMask) (t : T4 ℝ)
    (ht : maskedScores k x (some m) = some t) :
    (∀ b h i j, maskLookup m [b, h, i, j] = false →
      t.data b h i j = -1000000000) ∧
    (∀ b h i j0, j0 < t.d3 → maskLookup m [b, h, i, j0] = true →
      -1000000000 + Real.log (1000000 * (t.d3 : ℝ)) ≤ t.data b h i j0 →
      forbiddenMass (some m) (softmaxLast Real.exp t) b h i
        ≤ 1 / 1000000) :=
  ⟨fun b h i j hl => maskedScores_fill ht b h i j hl,
   fun b h i j0 hj0 hallow hscore =>
    mass_bound m t b h i j0
      (fun j hl => maskedScores_fill ht b h i j hl) hj0 hallow hscore⟩

/-- Witness for the amended C3: with all-zero input the allowed score is 0,
far above the required floor, and the sentinel value and mass bound hold. -/
theorem claim_C3_witness :
    ((maskedScores (kC3 ℝ) (xA ℝ) (some m1)).getD (dT4 ℝ)).data 0 0 0 0
      = -1000000000 ∧
    forbiddenMass (some m1)
      (softmaxLast Real.exp
        ((maskedScores (kC3 ℝ) (xA ℝ) (some m1)).getD (dT4 ℝ))) 0 0 0
      ≤ 1 / 1000000 := by
  have hms : maskedScores (kC3 ℝ) (xA ℝ) (some m1)
      = some ((maskedScores (kC3 ℝ) (xA ℝ) (some m1)).getD (dT4 ℝ)) := rfl
  have hscore0 : ((maskedScores (kC3 ℝ) (xA ℝ) (some m1)).getD
      (dT4 ℝ)).data 0 0 0 1 = 0 := by
    show (if maskLookup m1 [0, 0, 0, 1] then
      (scoresT (kC3 ℝ) (xA ℝ)).data 0 0 0 1 else -(1000000000 : ℝ)) = 0
    rw [if_pos (show maskLookup m1 [0, 0, 0, 1] = true from rfl)]
    show (∑ d in Finset.range 1,
      (qT (kC3 ℝ) (xA ℝ)).data 0 0 0 d *
        (kT (kC3 ℝ) (xA ℝ)).data 0 0 1 d) * (kC3 ℝ).scale = 0
    rw [Finset.sum_range_one]
    show ((qkvT (kC3 ℝ) (xA ℝ)).data 0 0 0 *
      (qkvT (kC3 ℝ) (xA ℝ)).data 0 1 1) * 1 = 0
    have hk : (qkvT (kC3 ℝ) (xA ℝ)).data 0 1 1 = 0 := by
      show (∑ e in Finset.range 1,
        (xA ℝ).data 0 1 e * (kC3 ℝ).to_qkv_w 1 e) + (kC3 ℝ).to_qkv_b 1 = 0
      rw [Finset.sum_range_one]
      norm_num [kC3, xA]
    rw [hk]
    ring
  refine ⟨(claim_C3 (kC3 ℝ) (xA ℝ) m1 _ hms).1 0 0 0 0 rfl, ?_⟩
  refine (claim_C3 (kC3 ℝ) (xA ℝ) m1 _ hms).2 0 0 0 1 (by decide) rfl ?_
  rw [hscore0]
  have hlog : Real.log (1000000 * ((((maskedScores (kC3 ℝ) (xA ℝ)
      (some m1)).getD (dT4 ℝ)).d3 : ℕ) : ℝ)) ≤ 2000000 - 1 := by
    have hd3n : (((maskedScores (kC3 ℝ) (xA ℝ) (some m1)).getD
        (dT4 ℝ)).d3) = 2 := rfl
    have hd3 : ((((maskedScores (kC3 ℝ) (xA ℝ) (some m1)).getD
        (dT4 ℝ)).d3 : ℕ) : ℝ) = 2 := by rw [hd3n]; norm_num
    rw [hd3]
    calc Real.log (1000000 * 2) ≤ 1000000 * 2 - 1 :=
          Real.log_le_sub_one_of_pos (by norm_num)
      _ = 2000000 - 1 := by norm_num
    
  linarith

section CongruenceLemmas

variable {R : Type} [Field R]

lemma forward_congr (rexp : R → R) (k : SelfAttention R) (x x2 : T3 R)
    (mask : Option TMask) (hd2 : x.d2 = k.embed_size) (hag : agree3 x x2) :
    agree3 (outT rexp k x mask) (outT rexp k x2 mask) := by
  obtain ⟨e0, e1, e2, hd⟩ := hag
  have hqkv : ∀ b s o, b < x.d0 → s < x.d1 →
      (qkvT k x).data b s o = (qkvT k x2).data b s o := by
    intro b s o hb hs
    show (∑ e in Finset.range k.embed_size, x.data b s e * k.to_qkv_w o e)
        + k.to_qkv_b o
      = (∑ e in Finset.range k.embed_size, x2.data b s e * k.to_qkv_w o e)
        + k.to_qkv_b o
    congr 1
    refine Finset.sum_congr rfl (fun e he => ?_)
    rw [hd b s e hb hs (by rw [hd2]; exact Finset.mem_range.mp he)]
  have hsc : ∀ b h i j, b < x.d0 → i < x.d1 → j < x.d1 →
      (scoresT k x).data b h i j = (scoresT k x2).data b h i j := by
    intro b h i j hb hi hj
    show (∑ d in Finset.range k.head_dim,
        (qT k x).data b h i d * (kT k x).data b h j d) * k.scale
      = (∑ d in Finset.range k.head_dim,
        (qT k x2).data b h i d * (kT k x2).data b h j d) * k.scale
    congr 1
    refine Finset.sum_congr rfl (fun d _ => ?_)
    show (qkvT k x).data b i (h * k.head_dim + d)
        * (qkvT k x).data b j (k.embed_size + (h * k.head_dim + d))
      = (qkvT k x2).data b i (h * k.head_dim + d)
        * (qkvT k x2).data b j (k.embed_size + (h * k.head_dim + d))
    rw [hqkv b i _ hb hi, hqkv b j _ hb hj]
  have hms : ∀ b h i j, b < x.d0 → i < x.d1 → j < x.d1 →
      (msT k x mask).data b h i j = (msT k x2 mask).data b h i j := by
    intro b h i j hb hi hj
    cases mask with
    | none => exact hsc b h i j hb hi hj
    | some m =>
      show (if maskLookup m [b, h, i, j] then (scoresT k x).data b h i j
        else -(1000000000 : R))
        = (if maskLookup m [b, h, i, j] then (scoresT k x2).data b h i j
          else -(1000000000 : R))
      cases hcase : maskLookup m [b, h, i, j] with
      | false => simp [hcase]
      | true => simp [hcase, hsc b h i j hb hi hj]
  have hw : ∀ b h i j, b < x.d0 → i < x.d1 → j < x.d1 →
      (wT rexp k x mask).data b h i j
        = (wT rexp k x2 mask).data b h i j := by
    intro b h i j hb hi hj
    show rexp ((msT k x mask).data b h i j) /
        (∑ l in Finset.range x.d1, rexp ((msT k x mask).data b h i l))
      = rexp ((msT k x2 mask).data b h i j) /
        (∑ l in Finset.range x2.d1, rexp ((msT k x2 mask).data b h i l))
    rw [hms b h i j hb hi hj, ← e1]
    congr 1
    refine Finset.sum_congr rfl (fun l hl => ?_)
    rw [hms b h i l hb hi (Finset.mem_range.mp hl)]
  have hv : ∀ b h j d, b < x.d0 → j < x.d1 →
      (vT k x).data b h j d = (vT k x2).data b h j d := by
    intro b h j d hb hj
    show (qkvT k x).data b j (2 * k.embed_size + (h * k.head_dim + d))
      = (qkvT k x2).data b j (2 * k.embed_size + (h * k.head_dim + d))
    exact hqkv b j _ hb hj
  have hctx : ∀ b h i d, b < x.d0 → i < x.d1 →
      (ctxT rexp k x mask).data b h i d
        = (ctxT rexp k x2 mask).data b h i d := by
    intro b h i d hb hi
    show (∑ j in Finset.range x.d1,
        (wT rexp k x mask).data b h i j * (vT k x).data b h j d)
      = (∑ j in Finset.range x2.d1,
        (wT rexp k x2 mask).data b h i j * (vT k x2).data b h j d)
    rw [← e1]
    refine Finset.sum_congr rfl (fun j hj => ?_)
    rw [hw b h i j hb hi (Finset.mem_range.mp hj),
      hv b h j d hb (Finset.mem_range.mp hj)]
  refine ⟨e0, e1, rfl, ?_⟩
  intro b s o hb hs _
  show (∑ e in Finset.range k.embed_size,
      (ctxT rexp k x mask).data b (e / k.head_dim) s (e % k.head_dim)
        * k.to_out_w o e) + k.to_out_b o
    = (∑ e in Finset.range k.embed_size,
      (ctxT rexp k x2 mask).data b (e / k.head_dim) s (e % k.head_dim)
        * k.to_out_w o e) + k.to_out_b o
  congr 1
  refine Finset.sum_congr rfl (fun e _ => ?_)
  rw [hctx b (e / k.head_dim) s (e % k.head_dim) hb hs]

end CongruenceLemmas

/-- Claim C8 (confirmed): determinism and purity.  For fixed weights the
forward transform is a function of the mathematical content of
(embeddings, mask) alone: two calls with the same kernel and mask, on two
representations of the same input tensor (equal shapes and equal entries
at every in-range index), return outputs that are again the same tensor.
In the exact-real model, bit-identical reproducibility is equality of
values; the embedding has no hidden state or randomness to quantify
over, and the source call has none either. -/
theorem claim_C8 (k : SelfAttention ℝ) (x x2 : T3 ℝ) (mask : Option TMask)
    (y y2 : T3 ℝ) (hd2 : x.d2 = k.embed_size)
    (hHD : k.heads * k.head_dim = k.embed_size)
    (hm : maskOK mask [x.d0, k.heads, x.d1, x.d1] = true)
    (hag : agree3 x x2)
    (h1 : forward Real.exp k x mask = some y)
    (h2 : forward Real.exp k x2 mask = some y2) :
    agree3 y y2 := by
  obtain ⟨e0, e1, e2, _⟩ := hag
  have hd2b : x2.d2 = k.embed_size := by rw [← e2]; exact hd2
  have hmb : maskOK mask [x2.d0, k.heads, x2.d1, x2.d1] = true := by
    rw [← e0, ← e1]; exact hm
  rw [forward_eq Real.exp k x mask hd2 (by rw [hHD]) hm] at h1
  rw [forward_eq Real.exp k x2 mask hd2b
    (by rw [hHD, ← e0, ← e1]) hmb] at h2
  injection h1 with h1
  injection h2 with h2
  subst h1
  subst h2
  exact forward_congr Real.exp k x x2 mask hd2 ⟨e0, e1, e2, ‹_›⟩

/-- Witness for C8: two representations of the same concrete input (one
with junk outside the index ranges) give outputs agreeing as tensors. -/
theorem claim_C8_witness :
    agree3 ((forward Real.exp (kA ℝ) (xA ℝ) none).getD (dT3 ℝ))
      ((forward Real.exp (kA ℝ) (xB ℝ) none).getD (dT3 ℝ)) :=
  claim_C8 (kA ℝ) (xA ℝ) (xB ℝ) none
    ((forward Real.exp (kA ℝ) (xA ℝ) none).getD (dT3 ℝ))
    ((forward Real.exp (kA ℝ) (xB ℝ) none).getD (dT3 ℝ))
    rfl rfl rfl
    ⟨rfl, rfl, rfl, fun b s e _ hs _ => by
      have hs2 : s < 2 := hs
      show (0 : ℝ) = if 5 ≤ s then 7 else 0
      rw [if_neg (by omega)]⟩
    rfl rfl

section PermLemmas

variable {R : Type} [Field R]

lemma wT_perm (rexp : R → R) (k : SelfAttention R) (x : T3 R)
    (π : Equiv.Perm ℕ) (hπ : ∀ i, π i < x.d1 ↔ i < x.d1) :
    ∀ b h i j, (wT rexp k (permuteSeq π x) none).data b h i j
      = (wT rexp k x none).data b h (π i) (π j) := by
  intro b h i j
  show rexp ((scoresT k x).data b h (π i) (π j)) /
      (∑ l in Finset.range x.d1,
        rexp ((scoresT k x).data b h (π i) (π l)))
    = rexp ((scoresT k x).data b h (π i) (π j)) /
      (∑ l in Finset.range x.d1,
        rexp ((scoresT k x).data b h (π i) l))
  congr 1
  exact sum_perm x.d1 π hπ
    (fun l => rexp ((scoresT k x).data b h (π i) l))

lemma ctxT_perm (rexp : R → R) (k : SelfAttention R) (x : T3 R)
    (π : Equiv.Perm ℕ) (hπ : ∀ i, π i < x.d1 ↔ i < x.d1) :
    ∀ b h i d, (ctxT rexp k (permuteSeq π x) none).data b h i d
      = (ctxT rexp k x none).data b h (π i) d := by
  intro b h i d
  show (∑ j in Finset.range x.d1,
      (wT rexp k (permuteSeq π x) none).data b h i j
        * (vT k (permuteSeq π x)).data b h j d)
    = ∑ j in Finset.range x.d1,
      (wT rexp k x none).data b h (π i) j * (vT k x).data b h j d
  calc (∑ j in Finset.range x.d1,
      (wT rexp k (permuteSeq π x) none).data b h i j
        * (vT k (permuteSeq π x)).data b h j d)
      = ∑ j in Finset.range x.d1,
        (wT rexp k x none).data b h (π i) (π j)
          * (vT k x).data b h (π j) d :=
        Finset.sum_congr rfl (fun j _ => by
          rw [wT_perm rexp k x π hπ b h i j]
          rfl)
    _ = ∑ j in Finset.range x.d1,
        (wT rexp k x none).data b h (π i) j * (vT k x).data b h j d :=
        sum_perm x.d1 π hπ
          (fun j => (wT rexp k x none).data b h (π i) j
            * (vT k x).data b h j d)

end PermLemmas

set_option maxHeartbeats 1000000 in
/-- Claim C9 (confirmed): permutation equivariance.  For a shape-valid
kernel and maskless input, permuting the sequence axis of the input by a
permutation of the positions yields the original output with its sequence
axis permuted the same way, and an attention-weight tensor equal to the
unpermuted one with both the query and the key index reindexed by the
permutation. -/
theorem claim_C9 (k : SelfAttention ℝ) (x : T3 ℝ) (π : Equiv.Perm ℕ)
    (hπ : ∀ i, π i < x.d1 ↔ i < x.d1)
    (hd2 : x.d2 = k.embed_size)
    (hHD : k.heads * k.head_dim = k.embed_size) :
    forward Real.exp k (permuteSeq π x) none
      = Option.map (permuteSeq π) (forward Real.exp k x none) ∧
    attnWeights Real.exp k (permuteSeq π x) none
      = Option.map (permuteQK π) (attnWeights Real.exp k x none) := by
  have hsplit : x.d0 * x.d1 * k.embed_size
      = x.d0 * x.d1 * (k.heads * k.head_dim) := by rw [hHD]
  have hd2p : (permuteSeq π x).d2 = k.embed_size := hd2
  have hsplitp : (permuteSeq π x).d0 * (permuteSeq π x).d1 * k.embed_size
      = (permuteSeq π x).d0 * (permuteSeq π x).d1
        * (k.heads * k.head_dim) := hsplit
  constructor
  · rw [forward_eq Real.exp k (permuteSeq π x) none hd2p hsplitp rfl,
      forward_eq Real.exp k x none hd2 hsplit rfl]
    simp only [Option.map_some']
    refine congrArg some ?_
    apply T3.ext
    · rfl
    · rfl
    · rfl
    · funext b s o
      show (∑ e in Finset.range k.embed_size,
          (ctxT Real.exp k (permuteSeq π x) none).data
            b (e / k.head_dim) s (e % k.head_dim) * k.to_out_w o e)
          + k.to_out_b o
        = (∑ e in Finset.range k.embed_size,
          (ctxT Real.exp k x none).data
            b (e / k.head_dim) (π s) (e % k.head_dim) * k.to_out_w o e)
          + k.to_out_b o
      congr 1
      refine Finset.sum_congr rfl (fun e _ => ?_)
      rw [ctxT_perm Real.exp k x π hπ b (e / k.head_dim) s
        (e % k.head_dim)]
  · rw [attnWeights_eq Real.exp k (permuteSeq π x) none hd2p hsplitp rfl,
      attnWeights_eq Real.exp k x none hd2 hsplit rfl]
    simp only [Option.map_some']
    refine congrArg some ?_
    apply T4.ext
    · rfl
    · rfl
    · rfl
    · rfl
    · funext b h i j
      exact wT_perm Real.exp k x π hπ b h i j

/-- Witness for C9 at the concrete transposition of positions 0 and 1 on a
two-token batch. -/
theorem claim_C9_witness :
    forward Real.exp (kA ℝ) (permuteSeq pswap (xA ℝ)) none
      = Option.map (permuteSeq pswap)
          (forward Real.exp (kA ℝ) (xA ℝ) none) :=
  (claim_C9 (kA ℝ) (xA ℝ) pswap
    (by
      intro i
      show Equiv.swap 0 1 i < 2 ↔ i < 2
      rcases i with _ | _ | n
      · rw [Equiv.swap_apply_left]
        norm_num
      · rw [Equiv.swap_apply_right]
        norm_num
      · rw [Equiv.swap_apply_of_ne_of_ne (by omega) (by omega)])
    rfl rfl).1
